import Mathlib

/-!
Verification of rustop's sampling/derivation engine and filter/sort pipeline
(src/main.rs), as a shallow embedding in Lean.

Modelling conventions:
* Rust `f64` values are modelled by `FVal`: `nan`, the two infinities, and
  finite values as exact rationals.  The program's float expressions never
  overflow for realistic inputs, and no claim depends on rounding, so finite
  arithmetic is modelled exactly on `ℚ`; negative zero is conflated with
  zero (the only divisors in the program are `elapsed_time`, which is
  `max _ 0.01 > 0`, and `num_cpus`, a non-negative integer cast, so the sign
  of a zero divisor is always `+0`).
* `u64` values are modelled as `ℕ`; the one arithmetic operation on them
  (`threshold * 1_000_000` in the memory filter) is reduced `% 2^64`,
  matching release-mode wrapping semantics.
* `HashMap<u32, UsageInfo>` is modelled as an association list whose keys
  are assumed distinct where a claim needs it; `pidrusage` (the second,
  per-pid counter read inside `stats`) is a function `ℕ → Option RUsageInfoV2`.
-/

namespace Rustop

/-- Model of an IEEE `f64` as used by the program: NaN, ±∞, or an exact
finite rational. -/
inductive FVal where
  | nan : FVal
  | neg_inf : FVal
  | pos_inf : FVal
  | fin (q : ℚ) : FVal
deriving DecidableEq

/-- IEEE subtraction on the modelled values (`a - b`). -/
def FVal.sub : FVal → FVal → FVal
  | .nan, _ => .nan
  | _, .nan => .nan
  | .pos_inf, .pos_inf => .nan
  | .pos_inf, _ => .pos_inf
  | .neg_inf, .neg_inf => .nan
  | .neg_inf, _ => .neg_inf
  | .fin _, .pos_inf => .neg_inf
  | .fin _, .neg_inf => .pos_inf
  | .fin a, .fin b => .fin (a - b)

/-- IEEE division on the modelled values (`a / b`); a zero divisor is
treated as `+0` (the only zero divisor reachable in the program is the
cast of the integer `0`). -/
def FVal.div : FVal → FVal → FVal
  | .nan, _ => .nan
  | _, .nan => .nan
  | .pos_inf, .pos_inf => .nan
  | .pos_inf, .neg_inf => .nan
  | .neg_inf, .pos_inf => .nan
  | .neg_inf, .neg_inf => .nan
  | .pos_inf, .fin b => if b < 0 then .neg_inf else .pos_inf
  | .neg_inf, .fin b => if b < 0 then .pos_inf else .neg_inf
  | .fin _, .pos_inf => .fin 0
  | .fin _, .neg_inf => .fin 0
  | .fin a, .fin b =>
    if b = 0 then (if a = 0 then .nan else if 0 < a then .pos_inf else .neg_inf)
    else .fin (a / b)

/-- IEEE multiplication on the modelled values. -/
def FVal.mul : FVal → FVal → FVal
  | .nan, _ => .nan
  | _, .nan => .nan
  | .pos_inf, .pos_inf => .pos_inf
  | .pos_inf, .neg_inf => .neg_inf
  | .neg_inf, .pos_inf => .neg_inf
  | .neg_inf, .neg_inf => .pos_inf
  | .pos_inf, .fin b => if b = 0 then .nan else if 0 < b then .pos_inf else .neg_inf
  | .neg_inf, .fin b => if b = 0 then .nan else if 0 < b then .neg_inf else .pos_inf
  | .fin a, .pos_inf => if a = 0 then .nan else if 0 < a then .pos_inf else .neg_inf
  | .fin a, .neg_inf => if a = 0 then .nan else if 0 < a then .neg_inf else .pos_inf
  | .fin a, .fin b => .fin (a * b)

/-- Rust partial comparison on `f64` values: `none` iff either operand is NaN, otherwise the
total order `-∞ < finite < +∞`. -/
def FVal.pcmp : FVal → FVal → Option Ordering
  | .nan, _ => none
  | _, .nan => none
  | .neg_inf, .neg_inf => some .eq
  | .neg_inf, _ => some .lt
  | .pos_inf, .pos_inf => some .eq
  | .pos_inf, _ => some .gt
  | .fin _, .neg_inf => some .gt
  | .fin _, .pos_inf => some .lt
  | .fin a, .fin b => some (compare a b)

/-- Rust `a > b` on `f64`: true iff the partial comparison returns `Greater`. -/
def FVal.fgt (a b : FVal) : Bool := decide (a.pcmp b = some .gt)

/-- Rust `a < b` on `f64`: true iff the partial comparison returns `Less`. -/
def FVal.flt (a b : FVal) : Bool := decide (a.pcmp b = some .lt)

/-- Model of `struct UsageInfo` from src/main.rs. -/
structure UsageInfo where
  pid : ℕ
  name : String
  cpu : FVal
  mem : ℕ
  start_time : ℕ
deriving DecidableEq

/-- The fields of `RUsageInfoV2` that the program reads from a `pidrusage`
call: the two cumulative CPU-time counters and the resident size. -/
structure RUsageInfoV2 where
  ri_system_time : ℕ
  ri_user_time : ℕ
  ri_resident_size : ℕ
deriving DecidableEq

/-- Cumulative CPU seconds: `(ri_system_time + ri_user_time) as f64 / 1_000_000.0`. -/
def cpuTimeOf (usage : RUsageInfoV2) : ℚ :=
  ((usage.ri_system_time + usage.ri_user_time : ℕ) : ℚ) / 1000000

/-- Model of `fn stats(num_cpus, sample)` from src/main.rs, lines 129–150.  The first
snapshot is the association list `sample0` (model of the `HashMap` built by
`sample()`) together with the uptime `sample1` at which it was taken; the
second, current reading is the function `pidrusage` giving the rusage of
each still-live pid at uptime `uptime_t2`.  Uptimes are whole seconds
(`System::uptime()` is a `u64`). -/
def stats (num_cpus : ℚ) (sample0 : List (ℕ × UsageInfo)) (sample1 : ℕ)
    (pidrusage : ℕ → Option RUsageInfoV2) (uptime_t2 : ℕ) : List UsageInfo :=
  let elapsed_time : ℚ := max ((uptime_t2 : ℚ) - (sample1 : ℚ)) (1 / 100)
  sample0.filterMap fun pi =>
    match pidrusage pi.1 with
    | none => none
    | some usage =>
      let new_cpu_time : ℚ := cpuTimeOf usage
      let cpu_usage : FVal :=
        FVal.mul (FVal.div (FVal.sub (.fin new_cpu_time) pi.2.cpu) (.fin elapsed_time))
          (FVal.div (.fin 100) (.fin num_cpus))
      some { pid := pi.1, name := pi.2.name, cpu := cpu_usage,
             mem := usage.ri_resident_size, start_time := pi.2.start_time }

/-- The only validation `main` performs before entering the refresh loop
(src/main.rs, lines 355–360): the refresh rate must be at least 1 second.
The logical CPU count, read at line 388, is never checked. -/
def preLoopCheck (refresh_rate : ℚ) : Except String Unit :=
  if refresh_rate < 1 then .error ("Refresh rate must be at least 1 second") else .ok ()

theorem FVal.sub_fin_fin (a b : ℚ) : FVal.sub (.fin a) (.fin b) = .fin (a - b) := rfl

theorem FVal.mul_fin_fin (a b : ℚ) : FVal.mul (.fin a) (.fin b) = .fin (a * b) := rfl

theorem FVal.div_fin_fin (a b : ℚ) (hb : b ≠ 0) :
    FVal.div (.fin a) (.fin b) = .fin (a / b) := by
  simp [FVal.div, hb]

theorem elapsed_ne_zero (x : ℚ) : max x (1 / 100) ≠ 0 := by
  intro h
  have : (1 / 100 : ℚ) ≤ max x (1 / 100) := le_max_right _ _
  rw [h] at this
  norm_num at this

/-- The sample the `stats` loop body pushes for pid `q` (src/main.rs,
lines 136–146), given the elapsed time and the successful current read. -/
def statOf (num_cpus : ℚ) (elapsed_time : ℚ) (q : ℕ) (info : UsageInfo)
    (usage : RUsageInfoV2) : UsageInfo :=
  { pid := q, name := info.name,
    cpu := FVal.mul (FVal.div (FVal.sub (.fin (cpuTimeOf usage)) info.cpu) (.fin elapsed_time))
      (FVal.div (.fin 100) (.fin num_cpus)),
    mem := usage.ri_resident_size, start_time := info.start_time }

theorem stats_eq (n : ℚ) (sample0 : List (ℕ × UsageInfo)) (u1 : ℕ)
    (cur : ℕ → Option RUsageInfoV2) (u2 : ℕ) :
    stats n sample0 u1 cur u2 =
      sample0.filterMap fun pi =>
        (cur pi.1).map (statOf n (max ((u2 : ℚ) - (u1 : ℚ)) (1 / 100)) pi.1 pi.2) := by
  simp only [stats]
  refine List.filterMap_congr fun pi _ => ?_
  cases cur pi.1 <;> rfl

theorem stats_nil (n : ℚ) (u1 : ℕ) (cur : ℕ → Option RUsageInfoV2) (u2 : ℕ) :
    stats n [] u1 cur u2 = [] := rfl

theorem stats_cons_none (n : ℚ) (q : ℕ) (info : UsageInfo) (rest : List (ℕ × UsageInfo))
    (u1 u2 : ℕ) (cur : ℕ → Option RUsageInfoV2) (hcq : cur q = none) :
    stats n ((q, info) :: rest) u1 cur u2 = stats n rest u1 cur u2 := by
  rw [stats_eq, stats_eq, List.filterMap_cons]
  simp [hcq]

theorem stats_cons_some (n : ℚ) (q : ℕ) (info : UsageInfo) (rest : List (ℕ × UsageInfo))
    (u1 u2 : ℕ) (cur : ℕ → Option RUsageInfoV2) (usage : RUsageInfoV2)
    (hcq : cur q = some usage) :
    stats n ((q, info) :: rest) u1 cur u2 =
      statOf n (max ((u2 : ℚ) - (u1 : ℚ)) (1 / 100)) q info usage
        :: stats n rest u1 cur u2 := by
  rw [stats_eq, stats_eq, List.filterMap_cons]
  simp [hcq]

theorem statOf_pid (n e : ℚ) (q : ℕ) (info : UsageInfo) (usage : RUsageInfoV2) :
    (statOf n e q info usage).pid = q := rfl

/-- Every sample emitted by `stats` stems from a pid that is a key of the
first snapshot and whose current `pidrusage` read succeeded. -/
theorem stats_pid_mem (n : ℚ) (prev : List (ℕ × UsageInfo)) (u1 u2 : ℕ)
    (cur : ℕ → Option RUsageInfoV2) :
    ∀ s ∈ stats n prev u1 cur u2, s.pid ∈ prev.map Prod.fst ∧ (cur s.pid).isSome := by
  intro s hs
  rw [stats_eq] at hs
  simp only [List.mem_filterMap] at hs
  obtain ⟨⟨q, info⟩, hmem, heq⟩ := hs
  cases hcq : cur q with
  | none => rw [hcq] at heq; cases heq
  | some usage =>
    rw [hcq] at heq
    simp only [Option.map_some', Option.some.injEq] at heq
    subst heq
    exact ⟨List.mem_map.mpr ⟨(q, info), hmem, rfl⟩, by simp [statOf_pid, hcq]⟩

/-- C1: for every pair of snapshots and every pid present in both, `stats`
emits a sample whose cpu value is exactly
`(cpu_delta / elapsed) * (100 / num_cpus)` with `elapsed` floored at `0.01`. -/
theorem c1_cpu_percent_formula (n : ℕ) (prev : List (ℕ × UsageInfo)) (u1 u2 : ℕ)
    (cur : ℕ → Option RUsageInfoV2) (pid : ℕ) (info : UsageInfo) (usage : RUsageInfoV2)
    (c : ℚ) (hn : 0 < n) (hmem : (pid, info) ∈ prev) (hcur : cur pid = some usage)
    (hc : info.cpu = .fin c) :
    ({ pid := pid, name := info.name,
       cpu := .fin (((cpuTimeOf usage - c) / max ((u2 : ℚ) - (u1 : ℚ)) (1 / 100))
                * (100 / (n : ℚ))),
       mem := usage.ri_resident_size, start_time := info.start_time } : UsageInfo)
      ∈ stats (n : ℚ) prev u1 cur u2 := by
  have hn' : ((n : ℚ)) ≠ 0 := Nat.cast_ne_zero.mpr hn.ne'
  rw [stats_eq]
  refine List.mem_filterMap.mpr ⟨(pid, info), hmem, ?_⟩
  rw [hcur, Option.map_some', statOf, hc, FVal.sub_fin_fin,
    FVal.div_fin_fin _ _ (elapsed_ne_zero _), FVal.div_fin_fin _ _ hn', FVal.mul_fin_fin]

/-- C2: with distinct keys in the first snapshot, `stats` emits exactly one
sample for a pid present in both snapshots, and none for a pid absent from
either. -/
theorem c2_one_sample_per_common_pid (n : ℚ) (prev : List (ℕ × UsageInfo)) (u1 u2 : ℕ)
    (cur : ℕ → Option RUsageInfoV2) (p : ℕ) (hnd : (prev.map Prod.fst).Nodup) :
    ((stats n prev u1 cur u2).filter (fun s => decide (s.pid = p))).length =
      if p ∈ prev.map Prod.fst ∧ (cur p).isSome then 1 else 0 := by
  induction prev with
  | nil => simp [stats_nil]
  | cons head rest ih =>
    obtain ⟨q, info⟩ := head
    simp only [List.map_cons, List.nodup_cons] at hnd
    obtain ⟨hq, hrest⟩ := hnd
    have hrestfilter : p = q →
        ((stats n rest u1 cur u2).filter (fun s => decide (s.pid = p))).length = 0 := by
      intro hpq
      subst hpq
      rw [List.length_eq_zero, List.filter_eq_nil_iff]
      intro s hs
      have hmem := (stats_pid_mem n rest u1 u2 cur s hs).1
      simp only [decide_eq_true_eq]
      intro hsp
      exact hq (hsp ▸ hmem)
    have hcond : p ≠ q →
        ((p ∈ q :: List.map Prod.fst rest ∧ (cur p).isSome = true) ↔
          (p ∈ List.map Prod.fst rest ∧ (cur p).isSome = true)) := by
      intro hpq
      simp [List.mem_cons, hpq]
    cases hcq : cur q with
    | none =>
      rw [stats_cons_none n q info rest u1 u2 cur hcq]
      by_cases hpq : p = q
      · subst hpq
        rw [hrestfilter rfl]
        simp [hcq]
      · rw [ih hrest]
        simp only [List.map_cons]
        rw [if_congr (hcond hpq) rfl rfl]
    | some usage =>
      rw [stats_cons_some n q info rest u1 u2 cur usage hcq]
      by_cases hpq : p = q
      · subst hpq
        rw [List.filter_cons_of_pos (by simp [statOf_pid]), List.length_cons,
          hrestfilter rfl]
        simp [hcq]
      · rw [List.filter_cons_of_neg (by simp [statOf_pid]; exact fun h => hpq h.symm),
          ih hrest]
        simp only [List.map_cons]
        rw [if_congr (hcond hpq) rfl rfl]

/-- The comparator `main` installs for `SortBy::Cpu` (src/main.rs, line 527):
the partial comparison of `b.cpu` against `a.cpu` with `None` defaulted to
`Less` (`unwrap_or(Ordering::Less)`). -/
def cmpCpu (a b : UsageInfo) : Ordering := (FVal.pcmp b.cpu a.cpu).getD .lt

/-- One shift step of a stable insertion sort, operating on the REVERSED
sorted prefix (most recently placed element first): the newly taken
element `x` shifts left past its predecessor `y` exactly when the
comparator answers `Less` for `(x, y)` — Rust's stable-sort swap rule,
`is_less(later, earlier)` — and stops at the first predecessor it is not
less than. -/
def insertShift (c : UsageInfo → UsageInfo → Ordering) (x : UsageInfo) :
    List UsageInfo → List UsageInfo
  | [] => [x]
  | y :: r => if c x y = .lt then y :: insertShift c x r else x :: y :: r

/-- Model of Rust's stable `slice::sort_by` as a left-to-right insertion
sort whose swap condition is `is_less(later, earlier)`, the rule shared by
Rust's stable sort implementations; the sorted prefix is kept reversed
during the fold and restored at the end.  For a comparator that is a total
order this is the unique stable sort; on a two-element slice it performs
exactly the single comparison, and conditional swap, that any
implementation performs. -/
def sortByCmp (c : UsageInfo → UsageInfo → Ordering) (l : List UsageInfo) : List UsageInfo :=
  (l.foldl (fun r x => insertShift c x r) []).reverse

/-- The `SortBy::Cpu` branch of the sort at src/main.rs, lines 525–532. -/
def sortByCpu (l : List UsageInfo) : List UsageInfo := sortByCmp cmpCpu l

theorem insertShift_perm (c : UsageInfo → UsageInfo → Ordering) (x : UsageInfo)
    (r : List UsageInfo) : (insertShift c x r).Perm (x :: r) := by
  induction r with
  | nil => exact List.Perm.refl _
  | cons y r ih =>
    rw [insertShift]
    by_cases h : c x y = .lt
    · rw [if_pos h]
      exact (ih.cons y).trans (List.Perm.swap x y r)
    · rw [if_neg h]

theorem mem_insertShift (c : UsageInfo → UsageInfo → Ordering) (x z : UsageInfo)
    (r : List UsageInfo) : z ∈ insertShift c x r ↔ z = x ∨ z ∈ r := by
  rw [(insertShift_perm c x r).mem_iff, List.mem_cons]

theorem foldl_insertShift_perm (c : UsageInfo → UsageInfo → Ordering) :
    ∀ l r : List UsageInfo,
      (l.foldl (fun acc x => insertShift c x acc) r).Perm (l ++ r) := by
  intro l
  induction l with
  | nil => intro r; exact List.Perm.refl _
  | cons x xs ih =>
    intro r
    exact ((ih (insertShift c x r)).trans
      (List.Perm.append_left xs (insertShift_perm c x r))).trans List.perm_middle

theorem sortByCmp_perm (c : UsageInfo → UsageInfo → Ordering) (l : List UsageInfo) :
    (sortByCmp c l).Perm l := by
  have h := foldl_insertShift_perm c l []
  rw [List.append_nil] at h
  exact (List.reverse_perm _).trans h

/-- Each shift step preserves the reversed-prefix invariant — no later
position compares `Greater` to an earlier one — given the comparator is
total and transitive on elements satisfying `P`. -/
theorem pairwise_insertShift (c : UsageInfo → UsageInfo → Ordering) (P : UsageInfo → Prop)
    (hlt : ∀ a b, P a → P b → ¬c a b = .lt → ¬c b a = .gt)
    (htrans : ∀ a b d, P a → P b → P d → ¬c a b = .gt → ¬c b d = .gt → ¬c a d = .gt)
    (x : UsageInfo) (r : List UsageInfo) (hx : P x) (hr : ∀ y ∈ r, P y)
    (h : r.Pairwise fun a b => ¬c b a = .gt) :
    (insertShift c x r).Pairwise fun a b => ¬c b a = .gt := by
  induction r with
  | nil => simp [insertShift]
  | cons y r ih =>
    rw [List.pairwise_cons] at h
    obtain ⟨hy, hr'⟩ := h
    rw [insertShift]
    by_cases hxy : c x y = .lt
    · rw [if_pos hxy]
      refine List.pairwise_cons.mpr ⟨?_, ih (fun z hz => hr z (List.mem_cons_of_mem y hz)) hr'⟩
      intro z hz
      rcases (mem_insertShift c x z r).mp hz with hzx | hzr
      · rw [hzx, hxy]
        decide
      · exact hy z hzr
    · rw [if_neg hxy]
      have hyx : ¬c y x = .gt := hlt x y hx (hr y (List.mem_cons_self y r)) hxy
      refine List.pairwise_cons.mpr ⟨?_, List.pairwise_cons.mpr ⟨hy, hr'⟩⟩
      intro z hz
      rcases List.mem_cons.mp hz with hzy | hzr
      · rw [hzy]
        exact hyx
      · exact htrans z y x (hr z (List.mem_cons_of_mem y hzr))
          (hr y (List.mem_cons_self y r)) hx (hy z hzr) hyx

theorem foldl_insertShift_pairwise (c : UsageInfo → UsageInfo → Ordering) (P : UsageInfo → Prop)
    (hlt : ∀ a b, P a → P b → ¬c a b = .lt → ¬c b a = .gt)
    (htrans : ∀ a b d, P a → P b → P d → ¬c a b = .gt → ¬c b d = .gt → ¬c a d = .gt) :
    ∀ l r : List UsageInfo, (∀ x ∈ l, P x) → (∀ y ∈ r, P y) →
      r.Pairwise (fun a b => ¬c b a = .gt) →
      (l.foldl (fun acc x => insertShift c x acc) r).Pairwise fun a b => ¬c b a = .gt := by
  intro l
  induction l with
  | nil => intro r _ _ h; exact h
  | cons x xs ih =>
    intro r hl hr h
    refine ih (insertShift c x r) (fun z hz => hl z (List.mem_cons_of_mem x hz)) ?_ ?_
    · intro z hz
      rcases (mem_insertShift c x z r).mp hz with hzx | hzr
      · rw [hzx]
        exact hl x (List.mem_cons_self x xs)
      · exact hr z hzr
    · exact pairwise_insertShift c P hlt htrans x r (hl x (List.mem_cons_self x xs)) hr h

theorem FVal.pcmp_not_gt_trans (u v w : FVal) (hu : u ≠ .nan) (hv : v ≠ .nan) (hw : w ≠ .nan)
    (h1 : ¬FVal.pcmp u v = some .gt) (h2 : ¬FVal.pcmp v w = some .gt) :
    ¬FVal.pcmp u w = some .gt := by
  cases u <;> cases v <;> cases w <;>
    (simp_all [FVal.pcmp, compare_gt_iff_gt, gt_iff_lt]; try linarith)

theorem FVal.pcmp_not_lt_asymm (u v : FVal) (hu : u ≠ .nan) (hv : v ≠ .nan)
    (h : ¬FVal.pcmp u v = some .lt) : ¬FVal.pcmp v u = some .gt := by
  cases u <;> cases v <;>
    (simp_all [FVal.pcmp, compare_gt_iff_gt, compare_lt_iff_lt, gt_iff_lt]; try linarith)

theorem FVal.pcmp_nan_right (u : FVal) : FVal.pcmp u .nan = none := by
  cases u <;> rfl

theorem FVal.pcmp_nan_left (v : FVal) : FVal.pcmp .nan v = none := by
  cases v <;> rfl

theorem cmpCpu_gt_iff (a b : UsageInfo) :
    cmpCpu a b = .gt ↔ FVal.pcmp b.cpu a.cpu = some .gt := by
  cases h : FVal.pcmp b.cpu a.cpu <;> simp [cmpCpu, h]

/-- Containment of the character sequence `pat` anywhere inside `l`
(Rust `str::contains` with a string pattern). -/
def listContains (pat : List Char) : List Char → Bool
  | [] => pat.isEmpty
  | c :: t => pat.isPrefixOf (c :: t) || listContains pat t

/-- Rust `hay.contains(&pat)` for strings. -/
def strContains (hay pat : String) : Bool := listContains pat.toList hay.toList

/-- What the user/kernel filter closures obtain from a fresh `sysinfo`
process lookup: the process name and, optionally, the string form of its
owning user id; `none` for the whole record models a failed lookup
(process vanished). -/
structure SysProc where
  name : String
  user_id : Option String

/-- Name filter closure (src/main.rs, lines 407–417): case-insensitive
substring match, vacuously true when unset. -/
def nameFilter (filter_opt : Option String) (stat : UsageInfo) : Bool :=
  match filter_opt with
  | some filter => strContains stat.name.toLower filter.toLower
  | none => true

/-- User filter closure (src/main.rs, lines 420–445): substring match of the
lowercased user text against the owner uid's string form; a failed process
lookup or a missing uid rejects the sample. -/
def userFilter (user_opt : Option String) (lookup : ℕ → Option SysProc)
    (stat : UsageInfo) : Bool :=
  match user_opt with
  | some user =>
    match lookup stat.pid with
    | some process =>
      match process.user_id with
      | some uid => strContains uid user.toLower
      | none => false
    | none => false
  | none => true

/-- Kernel-exclusion closure (src/main.rs, lines 448–467): when requested,
keeps a sample iff its name does not start with "kernel" and its pid is at
least 100; a failed lookup keeps the sample. -/
def kernelFilter (no_kernel : Bool) (lookup : ℕ → Option SysProc)
    (stat : UsageInfo) : Bool :=
  if no_kernel then
    match lookup stat.pid with
    | some process => !process.name.startsWith ("kernel") && decide (100 ≤ stat.pid)
    | none => true
  else true

/-- CPU threshold closure (src/main.rs, lines 470–488): strict float
comparisons against the optional bounds. -/
def cpuFilter (cpu_above cpu_below : Option ℚ) (stat : UsageInfo) : Bool :=
  (match cpu_above with
   | some threshold => FVal.fgt stat.cpu (.fin threshold)
   | none => true) &&
  (match cpu_below with
   | some threshold => FVal.flt stat.cpu (.fin threshold)
   | none => true)

/-- Memory threshold closure (src/main.rs, lines 491–518): strict `u64`
comparisons; in non-human-readable mode the threshold is scaled by
1,000,000 in wrapping 64-bit arithmetic. -/
def memFilter (mem_above mem_below : Option ℕ) (human_readable : Bool)
    (stat : UsageInfo) : Bool :=
  (match mem_above with
   | some threshold =>
     if human_readable then decide (threshold < stat.mem)
     else decide (threshold * 1000000 % 2 ^ 64 < stat.mem)
   | none => true) &&
  (match mem_below with
   | some threshold =>
     if human_readable then decide (stat.mem < threshold)
     else decide (stat.mem < threshold * 1000000 % 2 ^ 64)
   | none => true)

/-- The vector of the five filter closures, in build order
(src/main.rs, lines 405–519). -/
def filtersOf (filter_opt user_opt : Option String) (no_kernel : Bool)
    (cpu_above cpu_below : Option ℚ) (mem_above mem_below : Option ℕ)
    (human_readable : Bool) (lookup : ℕ → Option SysProc) : List (UsageInfo → Bool) :=
  [nameFilter filter_opt, userFilter user_opt lookup, kernelFilter no_kernel lookup,
   cpuFilter cpu_above cpu_below, memFilter mem_above mem_below human_readable]

/-- `stats.retain(|stat| filters.iter().all(|filter| filter(stat)))`
(src/main.rs, line 522). -/
def retainAll (fs : List (UsageInfo → Bool)) (l : List UsageInfo) : List UsageInfo :=
  l.filter fun s => fs.all fun f => f s

/-- Applying the predicates one after the other, each as its own
`filter` pass. -/
def seqFilter (fs : List (UsageInfo → Bool)) (l : List UsageInfo) : List UsageInfo :=
  fs.foldl (fun acc f => acc.filter f) l

theorem seqFilter_eq_retainAll (fs : List (UsageInfo → Bool)) (l : List UsageInfo) :
    seqFilter fs l = retainAll fs l := by
  induction fs generalizing l with
  | nil => simp [seqFilter, retainAll]
  | cons f fs ih =>
    show seqFilter fs (l.filter f) = _
    rw [ih, retainAll, retainAll, List.filter_filter]
    refine List.filter_congr fun s _ => ?_
    simp [List.all_cons, Bool.and_comm]

theorem retainAll_perm (fs fs' : List (UsageInfo → Bool)) (l : List UsageInfo)
    (h : fs.Perm fs') : retainAll fs l = retainAll fs' l := by
  refine List.filter_congr fun s _ => ?_
  induction h with
  | nil => rfl
  | cons f _ ih => simp [List.all_cons, ih]
  | swap f g t => simp [List.all_cons, ← Bool.and_assoc, Bool.and_comm]
  | trans _ _ ih1 ih2 => rw [ih1, ih2]

/-- C6: with a user filter active, a failed owner lookup drops the sample;
with kernel exclusion requested, a failed classification lookup keeps it. -/
theorem c6_lookup_failure_asymmetry (user : String) (lookup : ℕ → Option SysProc)
    (stat : UsageInfo) (h : lookup stat.pid = none) :
    userFilter (some user) lookup stat = false ∧ kernelFilter true lookup stat = true := by
  constructor
  · simp only [userFilter, h]
  · simp only [kernelFilter, h, if_true]

/-- C7: the composed filter is the logical AND of the five sub-predicates;
applying them in any permutation, even one pass at a time, retains the
same samples, and the result is a sublist of the input in input order. -/
theorem c7_filter_composition (filter_opt user_opt : Option String) (no_kernel : Bool)
    (cpu_above cpu_below : Option ℚ) (mem_above mem_below : Option ℕ)
    (human_readable : Bool) (lookup : ℕ → Option SysProc) (l : List UsageInfo)
    (fs' : List (UsageInfo → Bool))
    (hperm : fs'.Perm (filtersOf filter_opt user_opt no_kernel cpu_above cpu_below
      mem_above mem_below human_readable lookup)) :
    seqFilter fs' l =
      l.filter (fun s => nameFilter filter_opt s && userFilter user_opt lookup s &&
        kernelFilter no_kernel lookup s && cpuFilter cpu_above cpu_below s &&
        memFilter mem_above mem_below human_readable s) ∧
    (seqFilter fs' l).Sublist l := by
  have h1 : seqFilter fs' l =
      retainAll (filtersOf filter_opt user_opt no_kernel cpu_above cpu_below
        mem_above mem_below human_readable lookup) l :=
    (seqFilter_eq_retainAll fs' l).trans (retainAll_perm _ _ l hperm)
  have h2 : retainAll (filtersOf filter_opt user_opt no_kernel cpu_above cpu_below
      mem_above mem_below human_readable lookup) l =
      l.filter (fun s => nameFilter filter_opt s && userFilter user_opt lookup s &&
        kernelFilter no_kernel lookup s && cpuFilter cpu_above cpu_below s &&
        memFilter mem_above mem_below human_readable s) := by
    refine List.filter_congr fun s _ => ?_
    simp [filtersOf, List.all_cons, Bool.and_assoc]
  refine ⟨h1.trans h2, ?_⟩
  rw [h1]
  exact List.filter_sublist l

/-- Fixture: a sample whose derived cpu value is NaN. -/
def sampleNan : UsageInfo := { pid := 1, name := "a", cpu := .nan, mem := 0, start_time := 0 }

/-- Fixture: a sample with a finite cpu value. -/
def sampleFin : UsageInfo := { pid := 2, name := "b", cpu := .fin 1, mem := 0, start_time := 0 }

/-- C4 counterexample: on the two-element input `[finite, NaN]` the single
comparison the sort performs is `is_less(nan-sample, fin-sample)`, and the
comparator answers `Less` for every NaN comparison (`unwrap_or(Less)`), so
the pair is swapped and the NaN sample comes out FIRST — not strictly
after the finite sample as the claim requires. -/
theorem c4_counterexample :
    sampleNan.cpu = .nan ∧ sampleFin.cpu = .fin 1 ∧
      sortByCpu [sampleFin, sampleNan] = [sampleNan, sampleFin] ∧
      sortByCpu [sampleFin, sampleNan] ≠ [sampleFin, sampleNan] := by
  refine ⟨rfl, rfl, rfl, ?_⟩
  decide

/-- C4 (amended): the sort always returns a permutation of its input;
NaN-free samples come out pairwise descending in cpu (the comparator
never answers `Greater` from an earlier to a later element, which for
finite values means descending); but a NaN sample is NOT kept after
finite samples: on any two-element input containing a NaN cpu the single
comparison answers `Less`, so the pair is always swapped — in particular
`[finite, NaN]` sorts to `[NaN, finite]` with the NaN sample on top. -/
theorem c4_amended :
    (∀ a b : UsageInfo, a.cpu = .nan ∨ b.cpu = .nan → sortByCpu [a, b] = [b, a]) ∧
    (∀ l : List UsageInfo, (∀ s ∈ l, s.cpu ≠ .nan) →
        (sortByCpu l).Pairwise fun a b => ¬cmpCpu a b = .gt) ∧
    (∀ (a b : UsageInfo) (qa qb : ℚ), a.cpu = .fin qa → b.cpu = .fin qb →
        (¬cmpCpu a b = .gt ↔ qb ≤ qa)) ∧
    (∀ l : List UsageInfo, (sortByCpu l).Perm l) := by
  refine ⟨?_, ?_, ?_, fun l => sortByCmp_perm cmpCpu l⟩
  · intro a b hab
    have hc : cmpCpu b a = .lt := by
      rcases hab with ha | hb
      · simp [cmpCpu, ha, FVal.pcmp_nan_left]
      · simp [cmpCpu, hb, FVal.pcmp_nan_right]
    simp [sortByCpu, sortByCmp, insertShift, hc]
  · intro l hl
    rw [sortByCpu, sortByCmp, List.pairwise_reverse]
    refine foldl_insertShift_pairwise cmpCpu (fun s => s.cpu ≠ .nan) ?_ ?_ l [] hl
      (by simp) (by simp)
    · intro a b ha hb hab
      rw [cmpCpu_gt_iff]
      refine FVal.pcmp_not_lt_asymm b.cpu a.cpu hb ha ?_
      intro hc
      exact hab (by simp [cmpCpu, hc])
    · intro a b d ha hb hd h1 h2
      rw [cmpCpu_gt_iff] at h1 h2 ⊢
      exact FVal.pcmp_not_gt_trans d.cpu b.cpu a.cpu hd hb ha h2 h1
  · intro a b qa qb ha hb
    rw [cmpCpu_gt_iff, hb, ha]
    simp [FVal.pcmp, compare_gt_iff_gt, not_lt]

/-- C4 amended witness: the pair-swap clause applied at the concrete
finite-then-NaN input. -/
theorem c4_amended_witness :
    sortByCpu [sampleFin, sampleNan] = [sampleNan, sampleFin] :=
  c4_amended.1 sampleFin sampleNan (Or.inr rfl)

/-- Full per-process state at the second sampling instant, as the spec's
second `RawCounterSnapshot` would carry it: the rusage counters `stats`
actually reads, plus the process's start time, which the second read
cannot see (a `pidrusage` result has no start-time field). -/
structure ProcState where
  usage : RUsageInfoV2
  start_time : ℕ
deriving DecidableEq

/-- C5 (amended): every emitted sample takes `mem` verbatim from the
current rusage read and `start_time` (and `name`) verbatim from the
previous snapshot's entry. -/
theorem c5_field_sources (n : ℚ) (prev : List (ℕ × UsageInfo)) (u1 u2 : ℕ)
    (cur : ℕ → Option RUsageInfoV2) (s : UsageInfo) (hs : s ∈ stats n prev u1 cur u2) :
    ∃ info usage, (s.pid, info) ∈ prev ∧ cur s.pid = some usage ∧
      s.mem = usage.ri_resident_size ∧ s.start_time = info.start_time ∧
      s.name = info.name := by
  rw [stats_eq] at hs
  obtain ⟨⟨q, info⟩, hmem, heq⟩ := List.mem_filterMap.mp hs
  cases hcq : cur q with
  | none => rw [hcq] at heq; cases heq
  | some usage =>
    rw [hcq] at heq
    simp only [Option.map_some', Option.some.injEq] at heq
    subst heq
    exact ⟨info, usage, hmem, hcq, rfl, rfl, rfl⟩

/-- Fixture: previous-snapshot entry for pid 1, recorded start time 7. -/
def prevInfoC5 : UsageInfo := { pid := 1, name := "p", cpu := .fin 0, mem := 0, start_time := 7 }

/-- Fixture: the world at the second instant — pid 1 is now a process whose
start time is 9 (pid reuse between the snapshots). -/
def curStateC5 : ℕ → Option ProcState :=
  fun p => if p = 1 then some ⟨⟨0, 0, 500⟩, 9⟩ else none

/-- The rusage part of `curStateC5`, which is all `stats` gets to read. -/
def curC5 : ℕ → Option RUsageInfoV2 := fun p => (curStateC5 p).map ProcState.usage

/-- C5 counterexample: the emitted sample's start time is 7, the previous
snapshot's value, while the current snapshot's start time for that pid
is 9 — so start time is not copied from the current snapshot. -/
theorem c5_counterexample :
    ((stats 1 [(1, prevInfoC5)] 0 curC5 1).map fun s => s.start_time) = [7] ∧
      (curStateC5 1).map ProcState.start_time = some 9 ∧ (7 : ℕ) ≠ 9 := by
  refine ⟨rfl, rfl, by decide⟩

/-- Fixture: the sample `stats` emits in the C5 scenario. -/
def c5Sample : UsageInfo :=
  statOf 1 (max (((1 : ℕ) : ℚ) - ((0 : ℕ) : ℚ)) (1 / 100)) 1 prevInfoC5 ⟨0, 0, 500⟩

/-- C5 amended witness: the field-source theorem applied at the concrete
pid-reuse scenario. -/
theorem c5_field_sources_witness :
    ∃ info usage, (c5Sample.pid, info) ∈ [(1, prevInfoC5)] ∧
      curC5 c5Sample.pid = some usage ∧ c5Sample.mem = usage.ri_resident_size ∧
      c5Sample.start_time = info.start_time ∧ c5Sample.name = info.name :=
  c5_field_sources 1 [(1, prevInfoC5)] 0 1 curC5 c5Sample (by
    rw [stats_cons_some 1 1 prevInfoC5 [] 0 1 curC5 ⟨0, 0, 500⟩ rfl]
    exact List.mem_cons_self _ _)

/-- Fixture: previous-snapshot entry for the zero-CPU scenario, 0 seconds
of cumulative CPU time. -/
def prevInfoC3 : UsageInfo := { pid := 1, name := "p", cpu := .fin 0, mem := 0, start_time := 0 }

/-- Fixture: second entry with no CPU delta. -/
def prevInfoC3b : UsageInfo := { pid := 2, name := "q", cpu := .fin 3, mem := 0, start_time := 0 }

/-- Fixture: current reads for the zero-CPU scenario: pid 1 advanced to 50
CPU-seconds, pid 2 still at 3 CPU-seconds. -/
def curC3 : ℕ → Option RUsageInfoV2 :=
  fun p => if p = 1 then some ⟨30000000, 20000000, 500⟩
    else if p = 2 then some ⟨3000000, 0, 600⟩ else none

/-- C3: a zero logical-CPU count is not rejected.  The only pre-loop
validation accepts any refresh rate ≥ 1 regardless of the CPU count, and
`stats` then divides by the zero count: a positive CPU delta derives
`+∞` and a zero delta derives NaN, instead of any failure. -/
theorem c3_zero_cpus_not_rejected :
    preLoopCheck 1 = .ok () ∧
      ((stats 0 [(1, prevInfoC3), (2, prevInfoC3b)] 0 curC3 1).map fun s => s.cpu) =
        [FVal.pos_inf, FVal.nan] := by
  refine ⟨rfl, ?_⟩
  rw [stats_cons_some 0 1 prevInfoC3 [(2, prevInfoC3b)] 0 1 curC3 ⟨30000000, 20000000, 500⟩
      (by decide),
    stats_cons_some 0 2 prevInfoC3b [] 0 1 curC3 ⟨3000000, 0, 600⟩ (by decide), stats_nil,
    List.map_cons, List.map_cons, List.map_nil]
  have he : max (((1 : ℕ) : ℚ) - ((0 : ℕ) : ℚ)) (1 / 100) = 1 := by norm_num
  have hc1 : cpuTimeOf ⟨30000000, 20000000, 500⟩ = 50 := by norm_num [cpuTimeOf]
  have hc2 : cpuTimeOf ⟨3000000, 0, 600⟩ = 3 := by norm_num [cpuTimeOf]
  have hdiv0 : FVal.div (.fin 100) (.fin 0) = .pos_inf := by norm_num [FVal.div]
  simp only [statOf, he, hc1, hc2, prevInfoC3, prevInfoC3b, FVal.sub_fin_fin, hdiv0]
  rw [FVal.div_fin_fin _ _ one_ne_zero, FVal.div_fin_fin _ _ one_ne_zero]
  norm_num [FVal.mul]

/-- Row-truncation logic of `fn print` (src/main.rs, lines 181–186 and the
`take` at line 208): the terminal size defaults to `(0, 0)` when it cannot
be read, two rows are reserved for the header (saturating), an optional
user cap is intersected with the budget, and that many leading ranked rows
are rendered. -/
def renderedRows (termSize : Option (ℕ × ℕ)) (top : Option ℕ)
    (stats : List UsageInfo) : List UsageInfo :=
  let size := termSize.getD (0, 0)
  let lines_to_print : ℕ :=
    match top with
    | some n => min n (size.2 - 2)
    | none => size.2 - 2
  stats.take lines_to_print

/-- C8: the rows rendered are the first `min cap (rows - 2)` ranked rows
(so ranked order is preserved); a missing terminal size renders zero rows;
and when enough samples are available, the rendered count is exactly
`min cap (rows - 2)`. -/
theorem c8_rendered_rows (top : Option ℕ) (l : List UsageInfo) (cols rows n : ℕ) :
    renderedRows none top l = [] ∧
      renderedRows (some (cols, rows)) (some n) l = l.take (min n (rows - 2)) ∧
      renderedRows (some (cols, rows)) none l = l.take (rows - 2) ∧
      (min n (rows - 2) ≤ l.length →
        (renderedRows (some (cols, rows)) (some n) l).length = min n (rows - 2)) := by
  refine ⟨?_, rfl, rfl, ?_⟩
  · cases top <;> simp [renderedRows]
  · intro h
    simp only [renderedRows, Option.getD_some, List.length_take]
    omega

/-- C9: the threshold filters use strict inequalities, and in
non-human-readable mode a memory threshold `t` (small enough not to wrap)
means `t * 1,000,000` bytes. -/
theorem c9_strict_thresholds (ca cb : ℚ) (t : ℕ) (stat : UsageInfo) (q : ℚ)
    (hcpu : stat.cpu = .fin q) (ht : t * 1000000 < 2 ^ 64) :
    (cpuFilter (some ca) (some cb) stat = true ↔ ca < q ∧ q < cb) ∧
      (memFilter (some t) none false stat = true ↔ t * 1000000 < stat.mem) ∧
      (memFilter none (some t) false stat = true ↔ stat.mem < t * 1000000) := by
  refine ⟨?_, ?_, ?_⟩
  · simp [cpuFilter, hcpu, FVal.fgt, FVal.flt, FVal.pcmp, compare_gt_iff_gt,
      compare_lt_iff_lt, gt_iff_lt]
  · simp [memFilter]
    omega
  · simp [memFilter]
    omega

/-- C10: in non-human-readable mode the memory comparison is against
`threshold * 1,000,000` reduced modulo `2^64`, for every threshold; for
thresholds at most `(2^64 - 1) / 10^6` (floor division) the product does
not wrap, so the comparison is exact in scaled bytes. -/
theorem c10_mem_threshold_wrap (t : ℕ) (stat : UsageInfo) :
    (memFilter (some t) none false stat = true ↔ t * 1000000 % 2 ^ 64 < stat.mem) ∧
      (t ≤ (2 ^ 64 - 1) / 1000000 → t * 1000000 % 2 ^ 64 = t * 1000000) := by
  constructor
  · simp [memFilter]
  · intro h
    omega

/-- Fixture: a third sample for ranking/truncation scenarios. -/
def sampleThird : UsageInfo := { pid := 3, name := "c", cpu := .fin 2, mem := 10, start_time := 5 }

/-- Fixture: a sample holding 150,000,000 bytes of resident memory. -/
def sample150M : UsageInfo :=
  { pid := 4, name := "m", cpu := .fin 50, mem := 150000000, start_time := 0 }

/-- Fixture: previous-snapshot entry for the end-to-end cpu scenario. -/
def prevInfoA : UsageInfo := { pid := 1, name := "pa", cpu := .fin 0, mem := 0, start_time := 3 }

/-- Fixture: current read advancing pid 1 to 50 cumulative CPU-seconds. -/
def curA : ℕ → Option RUsageInfoV2 := fun _ => some ⟨30000000, 20000000, 500⟩

/-- C1 witness: cpu delta 50 over 1 second yields 5000 on one core and
1250 on four cores. -/
theorem c1_witness :
    ({ pid := 1, name := "pa", cpu := .fin 5000, mem := 500, start_time := 3 } : UsageInfo)
        ∈ stats ((1 : ℕ) : ℚ) [(1, prevInfoA)] 0 curA 1 ∧
      ({ pid := 1, name := "pa", cpu := .fin 1250, mem := 500, start_time := 3 } : UsageInfo)
        ∈ stats ((4 : ℕ) : ℚ) [(1, prevInfoA)] 0 curA 1 := by
  have hmax : max (((1 : ℕ) : ℚ) - ((0 : ℕ) : ℚ)) (1 / 100) = 1 := by norm_num
  constructor
  · have h := c1_cpu_percent_formula 1 [(1, prevInfoA)] 0 1 curA 1 prevInfoA
      ⟨30000000, 20000000, 500⟩ 0 (by norm_num) (List.mem_cons_self _ _) rfl rfl
    have hq : ((cpuTimeOf ⟨30000000, 20000000, 500⟩ - 0) /
        max (((1 : ℕ) : ℚ) - ((0 : ℕ) : ℚ)) (1 / 100)) * (100 / ((1 : ℕ) : ℚ)) = 5000 := by
      rw [hmax]
      norm_num [cpuTimeOf]
    rw [hq] at h
    exact h
  · have h := c1_cpu_percent_formula 4 [(1, prevInfoA)] 0 1 curA 1 prevInfoA
      ⟨30000000, 20000000, 500⟩ 0 (by norm_num) (List.mem_cons_self _ _) rfl rfl
    have hq : ((cpuTimeOf ⟨30000000, 20000000, 500⟩ - 0) /
        max (((1 : ℕ) : ℚ) - ((0 : ℕ) : ℚ)) (1 / 100)) * (100 / ((4 : ℕ) : ℚ)) = 1250 := by
      rw [hmax]
      norm_num [cpuTimeOf]
    rw [hq] at h
    exact h

/-- Fixture: current reads for the C2 witness — pid 1 alive, pid 2 gone. -/
def curB : ℕ → Option RUsageInfoV2 := fun p => if p = 1 then some ⟨1000000, 0, 100⟩ else none

/-- C2 witness: a pid present in the first snapshot but gone from the
second yields no sample. -/
theorem c2_witness :
    ((stats ((1 : ℕ) : ℚ) [(1, prevInfoA), (2, prevInfoC3b)] 0 curB 1).filter
        fun s => decide (s.pid = 2)).length = 0 := by
  have h := c2_one_sample_per_common_pid ((1 : ℕ) : ℚ) [(1, prevInfoA), (2, prevInfoC3b)] 0 1
    curB 2 (by decide)
  rw [if_neg (by decide)] at h
  exact h

/-- C6 witness: the asymmetry at a concrete failed lookup. -/
theorem c6_witness :
    userFilter (some ("root")) (fun _ => none) sampleFin = false ∧
      kernelFilter true (fun _ => none) sampleFin = true :=
  c6_lookup_failure_asymmetry ("root") (fun _ => none) sampleFin rfl

/-- C7 witness: a concrete permutation (user filter applied before the name
filter) retains the same samples as the composed AND, in input order. -/
theorem c7_witness :
    seqFilter [userFilter none (fun _ => none), nameFilter (some ("x")),
        kernelFilter true (fun _ => none), cpuFilter none none, memFilter none none false]
      [sampleFin, sampleNan] =
      List.filter (fun s => nameFilter (some ("x")) s && userFilter none (fun _ => none) s &&
        kernelFilter true (fun _ => none) s && cpuFilter none none s &&
        memFilter none none false s) [sampleFin, sampleNan] ∧
      (seqFilter [userFilter none (fun _ => none), nameFilter (some ("x")),
        kernelFilter true (fun _ => none), cpuFilter none none, memFilter none none false]
      [sampleFin, sampleNan]).Sublist [sampleFin, sampleNan] :=
  c7_filter_composition (some ("x")) none true none none none none false (fun _ => none)
    [sampleFin, sampleNan] _ (List.Perm.swap _ _ _)

/-- C8 witness: cap 5 with 3 available rows renders exactly the first 3
ranked rows; an unreadable terminal renders none. -/
theorem c8_witness :
    renderedRows (some (80, 5)) (some 5) [sampleFin, sampleThird, sampleNan] =
        [sampleFin, sampleThird, sampleNan].take (min 5 (5 - 2)) ∧
      (renderedRows (some (80, 5)) (some 5) [sampleFin, sampleThird, sampleNan]).length =
        min 5 (5 - 2) ∧
      renderedRows none (some 5) [sampleFin, sampleThird, sampleNan] = [] := by
  obtain ⟨h1, h2, h3, h4⟩ := c8_rendered_rows (some 5) [sampleFin, sampleThird, sampleNan] 80 5 5
  exact ⟨h2, h4 (by decide), h1⟩

/-- C9 witness: threshold 100 retains the 150 MB sample, threshold 200
drops it (non-human-readable mode). -/
theorem c9_witness :
    memFilter (some 100) none false sample150M = true ∧
      memFilter (some 200) none false sample150M = false := by
  constructor
  · exact ((c9_strict_thresholds 0 1 100 sample150M 50 rfl (by norm_num)).2.1).mpr
      (by norm_num [sample150M])
  · have h := (c9_strict_thresholds 0 1 200 sample150M 50 rfl (by norm_num)).2.1
    cases hb : memFilter (some 200) none false sample150M
    · rfl
    · exact absurd (h.mp hb) (by norm_num [sample150M])

/-- C10 witness: the wrap-free bound applied at the largest exact
threshold. -/
theorem c10_witness :
    (memFilter (some 18446744073709) none false sample150M = true ↔
        18446744073709 * 1000000 % 2 ^ 64 < sample150M.mem) ∧
      18446744073709 * 1000000 % 2 ^ 64 = 18446744073709 * 1000000 := by
  obtain ⟨h1, h2⟩ := c10_mem_threshold_wrap 18446744073709 sample150M
  exact ⟨h1, h2 (by norm_num)⟩

end Rustop
